import Mathlib

/-!
Shallow embedding of the `window.Rules` policy/authorization engine
(source file: the "MODULE: RULES (Root Authority)" script).

Modelling conventions, chosen to mirror the ECMAScript source:

* The mutable singleton's `_rules` array is passed explicitly as a
  `List Rule`; every mutating method takes the store and returns the
  new store (and its boolean result where the source returns one).
* JavaScript numbers are modelled as `ℚ` (the validator only performs
  order comparisons, and the sort comparator only compares priorities,
  so rationals capture every behaviour the engine exercises, including
  non-integral priorities such as `2.5`).
* Context objects and `condition.context` maps are modelled as
  association lists `List (String × String)`; property access
  `context[key]` is first-match lookup, absent keys behave like
  `undefined` (modelled as `Option.none`).
* Fields that the source may leave `undefined` (`request.target`,
  `request.context`, `condition.when`, `effect.reason`,
  `effect.transform`, `effect.modifiedAction`) are `Option`s; the
  JavaScript falsy test on a string also treats `""` as absent, which
  is modelled explicitly at each use site.
* A `modify` transform is a Lean function `Request → Except String JsVal`;
  `Except.error` models a thrown exception, which `_applyEffect`
  catches.  `JsVal` is the universe of values a transform can return
  (a string or the original request object).
* The diagnostics calls (`window.Debugger.log…`) only log and never
  affect the returned decision; they are omitted.
-/

namespace RulesEngine

/-- Request context object: association list modelling a JS object's
own enumerable string-valued properties. -/
abbrev Ctx := List (String × String)

/-- Property access `ctx[k]`: first binding wins, absent key is `none`
(JS `undefined`). -/
def ctxGet (ctx : Ctx) (k : String) : Option String :=
  (ctx.find? (fun p => p.1 = k)).map (fun p => p.2)

/-- An `evaluate` request `{action, target, context, source}`; each field
may be absent (`undefined`). A request with `action = none` models both
a missing property and a null-ish one. -/
structure Request where
  action : Option String
  target : Option String
  context : Option Ctx
  source : Option String
deriving DecidableEq

/-- Values a `modify` transform may produce and that may sit in
`effect.modifiedAction`: a plain string payload or the request object
(the source's fallback `effect.modifiedAction || request`). -/
inductive JsVal where
  | str : String → JsVal
  | ofRequest : Request → JsVal
deriving DecidableEq

/-- JS falsiness of a `JsVal`: the empty string is falsy, objects are
always truthy. -/
def jsValFalsy : JsVal → Bool
  | JsVal.str s => s = ""
  | JsVal.ofRequest _ => false

/-- A rule's `effect` record.  `type` is kept as the source's string tag
("allow" / "deny" / "modify"; anything else hits `_applyEffect`'s
default branch). -/
structure Effect where
  type : String
  reason : Option String := none
  transform : Option (Request → Except String JsVal) := none
  modifiedAction : Option JsVal := none

/-- A rule's `condition` record.  `whenCond` models the source's `when`
property (`undefined` allowed). -/
structure Condition where
  action : String
  target : String
  whenCond : Option String := none
  context : Option Ctx := none

/-- A rule object, as validated and stored by the engine. -/
structure Rule where
  id : String
  name : String
  priority : ℚ
  level : String
  condition : Condition
  effect : Effect
  enabled : Bool

/-- `HIERARCHY`: the fixed ordered level set. -/
def HIERARCHY : List String :=
  ["system", "environment", "project", "mode", "widget"]

/-- `ACTIONS`: the closed action taxonomy (the object literal's own
keys, all mapped to `true` in the source). -/
def ACTIONS : List String :=
  ["widget.open", "widget.close", "widget.execute", "widget.install",
   "widget.uninstall",
   "window.create", "window.close", "window.move", "window.resize",
   "window.focus", "window.minimize", "window.maximize",
   "db.read", "db.write", "db.delete", "db.export", "db.import",
   "project.create", "project.open", "project.save", "project.export",
   "project.delete", "project.switch", "project.clone",
   "page.create", "page.update", "page.delete", "page.preview",
   "ui.notify", "ui.alert", "ui.confirm",
   "system.boot", "system.shutdown", "system.debug", "system.log",
   "system.settings.read", "system.settings.write"]

/-- Properties every object literal inherits from `Object.prototype`
in ECMAScript; `this.ACTIONS[a]` is truthy for these even though they
are not keys of the `ACTIONS` literal, because plain property access
walks the prototype chain. -/
def objectProtoTruthy : List String :=
  ["constructor", "hasOwnProperty", "isPrototypeOf",
   "propertyIsEnumerable", "toLocaleString", "toString", "valueOf",
   "__proto__", "__defineGetter__", "__defineSetter__",
   "__lookupGetter__", "__lookupSetter__"]

/-- Truthiness of `this.ACTIONS[a]`: an own key of the taxonomy object,
or an inherited `Object.prototype` member (all of which are functions
or objects, hence truthy). -/
def actionsTruthy (a : String) : Bool :=
  ACTIONS.contains a || objectProtoTruthy.contains a

/-! ### Target pattern matching (`_matchesTarget`)

The source compiles two regexes with `new RegExp`:
the delimited form `"/…/"` (tested unanchored) and the glob form,
built as `"^" + pattern.replace(/\*/g, ".*") + "$"` (a full-string
match).  The regex fragment those strings can contain is modelled by
`RAtom`/`RPiece`: literal characters, the metacharacter `.` (any
single character), and the postfix quantifiers `*` and `+`.  Other
regex metacharacters are treated as literals; no rule pattern in the
repository (and no claim) uses any. -/

/-- A regex atom of the modelled fragment. -/
inductive RAtom where
  | anyChar : RAtom
  | lit : Char → RAtom
deriving DecidableEq

/-- Does an atom match one character? -/
def atomMatch : RAtom → Char → Bool
  | RAtom.anyChar, _ => true
  | RAtom.lit c, d => c = d

/-- A regex piece: an atom taken exactly once, or starred. -/
inductive RPiece where
  | once : RAtom → RPiece
  | star : RAtom → RPiece
deriving DecidableEq

/-- The atom denoted by one pattern character: `.` is the any-character
metacharacter, everything else is literal. -/
def mkAtom (c : Char) : RAtom :=
  if c = '.' then RAtom.anyChar else RAtom.lit c

/-- Parse a regex body into pieces; a `*` or `+` quantifies the
preceding character (`a+` is expanded to `a a*`). -/
def parseRex : List Char → List RPiece
  | [] => []
  | c :: '*' :: rest => RPiece.star (mkAtom c) :: parseRex rest
  | c :: '+' :: rest =>
      RPiece.once (mkAtom c) :: RPiece.star (mkAtom c) :: parseRex rest
  | c :: rest => RPiece.once (mkAtom c) :: parseRex rest

/-- All suffixes reachable from `cs` by consuming zero or more
characters that match atom `a` (the backtracking states of `a*`). -/
def starConsume (a : RAtom) : List Char → List (List Char)
  | [] => [[]]
  | c :: cs =>
      (c :: cs) :: (if atomMatch a c then starConsume a cs else [])

/-- Anchored match: do the pieces consume exactly the whole character
list?  This is `regex.test` for the anchored glob regex. -/
def rexFull : List RPiece → List Char → Bool
  | [], cs => cs.isEmpty
  | RPiece.once _ :: _, [] => false
  | RPiece.once a :: ps, c :: cs => atomMatch a c && rexFull ps cs
  | RPiece.star a :: ps, cs => (starConsume a cs).any (fun t => rexFull ps t)

/-- Do the pieces consume some prefix of the character list? -/
def rexPart : List RPiece → List Char → Bool
  | [], _ => true
  | RPiece.once _ :: _, [] => false
  | RPiece.once a :: ps, c :: cs => atomMatch a c && rexPart ps cs
  | RPiece.star a :: ps, cs => (starConsume a cs).any (fun t => rexPart ps t)

/-- Unanchored `regex.test`: the pieces match at some position. -/
def rexTest (ps : List RPiece) (cs : List Char) : Bool :=
  cs.tails.any (fun t => rexPart ps t)

/-- The substitution `pattern.replace(/\*/g, ".*")`. -/
def globChars : List Char → List Char
  | [] => []
  | '*' :: rest => '.' :: '*' :: globChars rest
  | c :: rest => c :: globChars rest

/-- `_matchesTarget(pattern, target)`: literal `*`, exact equality,
delimited regex `"/…/"` (`slice(1, -1)`, tested unanchored), then the
glob form for patterns containing `*`; otherwise no match. -/
def matchesTarget (pattern target : String) : Bool :=
  if pattern = "*" then true
  else if pattern = target then true
  else if pattern.data.head? = some '/' && pattern.data.getLast? = some '/' then
    rexTest (parseRex ((pattern.data.drop 1).dropLast)) target.data
  else if pattern.data.contains '*' then
    rexFull (parseRex (globChars pattern.data)) target.data
  else false

/-- `_matchesWhen(when, context)`: `"always"` matches; `"mode:<v>"`
(`when.substring(5)`) matches iff `context.mode === v` or
`context.activeMode === v`; anything else fails closed. -/
def matchesWhen (w : String) (ctx : Ctx) : Bool :=
  if w = "always" then true
  else
    match w.data with
    | 'm' :: 'o' :: 'd' :: 'e' :: ':' :: rest =>
        (ctxGet ctx "mode" == some (String.mk rest)) ||
        (ctxGet ctx "activeMode" == some (String.mk rest))
    | _ => false

/-- The shared guard `if (cond.when && cond.when !== "always")`:
an absent or empty (falsy) `when`, and the literal `"always"`, are
accepted without consulting `_matchesWhen`. -/
def whenGateOk (w : Option String) (ctx : Ctx) : Bool :=
  match w with
  | none => true
  | some s =>
      if s = "" then true
      else if s = "always" then true
      else matchesWhen s ctx

/-- The `condition.context` loop: every key of the map must be present
in the request context with the exact expected value. -/
def ctxChecksOk (cc : Option Ctx) (ctx : Ctx) : Bool :=
  match cc with
  | none => true
  | some m => m.all (fun p => ctxGet ctx p.1 == some p.2)

/-- `_matchesCondition(condition, action, target, context)`. -/
def matchesCondition (c : Condition) (a t : String) (ctx : Ctx) : Bool :=
  if c.action ≠ "*" ∧ c.action ≠ a then false
  else if c.target ≠ "*" ∧ matchesTarget c.target t = false then false
  else if whenGateOk c.whenCond ctx = false then false
  else ctxChecksOk c.context ctx

/-- The filter predicate of `_getApplicableRules`: enabled, action
pattern matches, target pattern matches, `when` gate passes. -/
def ruleApplicable (r : Rule) (a t : String) (ctx : Ctx) : Bool :=
  if r.enabled = false then false
  else if r.condition.action ≠ "*" ∧ r.condition.action ≠ a then false
  else if r.condition.target ≠ "*" ∧ matchesTarget r.condition.target t = false
    then false
  else if whenGateOk r.condition.whenCond ctx = false then false
  else true

/-- `_getApplicableRules(action, target, context)`. -/
def getApplicableRules (s : List Rule) (a t : String) (ctx : Ctx) :
    List Rule :=
  s.filter (fun r => ruleApplicable r a t ctx)

/-- `effect.reason || default`: JS `||` also treats `""` as absent. -/
def reasonOr (r : Option String) (d : String) : String :=
  match r with
  | none => d
  | some s => if s = "" then d else s

/-- A decision `{allowed, reason, modifiedAction?}` as built by the
engine (every branch of the source sets a `reason`). -/
structure EvalResult where
  allowed : Bool
  reason : String
  modifiedAction : Option JsVal
deriving DecidableEq

/-- `_applyEffect(effect, request)`.  A transform that throws is an
`Except.error`, caught here and downgraded to a denial; absent
transform falls back to `effect.modifiedAction || request`. -/
def applyEffect (effect : Effect) (request : Request) : EvalResult :=
  if effect.type = "allow" then
    { allowed := true
      reason := reasonOr effect.reason "Action allowed by rule"
      modifiedAction := none }
  else if effect.type = "deny" then
    { allowed := false
      reason := reasonOr effect.reason "Action denied by rule"
      modifiedAction := none }
  else if effect.type = "modify" then
    match effect.transform with
    | some f =>
        match f request with
        | Except.ok v =>
            { allowed := true
              reason := reasonOr effect.reason "Action modified by rule"
              modifiedAction := some v }
        | Except.error _ =>
            { allowed := false
              reason := "Rule transform failed"
              modifiedAction := none }
    | none =>
        { allowed := true
          reason := reasonOr effect.reason "Action modified by rule"
          modifiedAction := some
            (match effect.modifiedAction with
             | some v =>
                 if jsValFalsy v then JsVal.ofRequest request else v
             | none => JsVal.ofRequest request) }
  else
    { allowed := false
      reason := "Unknown effect type: " ++ effect.type
      modifiedAction := none }

/-- The evaluation loop's winning test: `rule.enabled` and the full
`_matchesCondition` check (the walk over `_getApplicableRules` skips a
rule failing either and applies the first passing rule's effect). -/
def ruleWins (a t : String) (ctx : Ctx) (r : Rule) : Bool :=
  r.enabled && matchesCondition r.condition a t ctx

/-- `evaluate(request)` over an explicit store.  Missing (or empty,
hence falsy) action and unknown actions are rejected up front;
destructuring defaults are `target = '*'`, `context = {}`.  The store
is the already-sorted `_rules` list. -/
def evaluate (s : List Rule) (request : Request) : EvalResult :=
  match request.action with
  | none =>
      { allowed := false
        reason := "Invalid request: missing action"
        modifiedAction := none }
  | some a =>
      if a = "" then
        { allowed := false
          reason := "Invalid request: missing action"
          modifiedAction := none }
      else if actionsTruthy a = false ∧ a ≠ "*" then
        { allowed := false
          reason := "Unknown action: " ++ a
          modifiedAction := none }
      else
        match (getApplicableRules s a (request.target.getD "*")
            (request.context.getD [])).find?
            (ruleWins a (request.target.getD "*")
              (request.context.getD [])) with
        | some r => applyEffect r.effect request
        | none =>
            { allowed := false
              reason := "No matching rule found"
              modifiedAction := none }

/-- `_validateRule(rule)`.  The dynamic `typeof` checks are vacuous on
the typed model; the value checks are kept verbatim (note: the
priority check is only a range check on the number, there is no
integrality test in the source). -/
def validateRule (rule : Rule) : Bool :=
  if rule.id = "" then false
  else if rule.name = "" then false
  else if rule.priority < 1 ∨ 1000 < rule.priority then false
  else if HIERARCHY.contains rule.level = false then false
  else if rule.condition.action = "" then false
  else if (["allow", "deny", "modify"].contains rule.effect.type) = false
    then false
  else true

/-- One step of insertion sort: place `r` before the first element of
strictly smaller priority (equal priorities keep `r` first, matching
the stability contract used below). -/
def insertRule (r : Rule) : List Rule → List Rule
  | [] => [r]
  | x :: xs =>
      if x.priority ≤ r.priority then r :: x :: xs
      else x :: insertRule r xs

/-- `this._rules.sort((a, b) => b.priority - a.priority)`: ECMAScript
requires `Array.prototype.sort` to be stable, and the stable
descending-by-priority permutation of a list is unique, so the sort is
modelled by stable insertion sort. -/
def sortRules (l : List Rule) : List Rule :=
  l.foldr insertRule []

/-- `this._rules[existingIndex] = rule` after a successful
`findIndex`: replace the first element carrying the id. -/
def replaceById : List Rule → Rule → List Rule
  | [], _ => []
  | x :: xs, r => if x.id = r.id then r :: xs else x :: replaceById xs r

/-- `register(rule)`: refuse falsy/invalid rules, replace an existing
id in place or push, then re-sort.  Returns the success flag and the
new store. -/
def register (s : List Rule) (rule : Rule) : Bool × List Rule :=
  if rule.id = "" then (false, s)
  else if validateRule rule = false then (false, s)
  else if s.any (fun r => r.id = rule.id) then
    (true, sortRules (replaceById s rule))
  else
    (true, sortRules (s ++ [rule]))

/-- `unregister(ruleId)`: remove the first rule with the id unless it
is system-level; report whether a removal happened. -/
def unregister : List Rule → String → Bool × List Rule
  | [], _ => (false, [])
  | x :: xs, rid =>
      if x.id = rid then
        if x.level = "system" then (false, x :: xs) else (true, xs)
      else
        let res := unregister xs rid
        (res.1, x :: res.2)

/-- `clear()`: evict every non-system rule. -/
def clear (s : List Rule) : List Rule :=
  s.filter (fun r => r.level = "system")

/-- A project object as consumed by `loadProjectRules`; `rules = none`
models a missing/null `rules` property (an empty array is truthy in JS
and therefore `some []`). -/
structure Project where
  rules : Option (List Rule)

/-- The body of `loadProjectRules`' `forEach` loop: register the entry
when (and only when) its level is `"project"`. -/
def projectStep (acc : List Rule) (r : Rule) : List Rule :=
  if r.level = "project" then (register acc r).2 else acc

/-- `loadProjectRules(project)`: evict project-level rules, then
register each project-level entry of the supplied array. -/
def loadProjectRules (s : List Rule) (project : Option Project) :
    List Rule :=
  match project with
  | none => s
  | some p =>
      match p.rules with
      | none => s
      | some rs =>
          rs.foldl projectStep (s.filter (fun r => r.level ≠ "project"))

/-- Equal-priority-independent distinctness of ids among the
project-level entries of a rule array. -/
def distinctProjectIds (rs : List Rule) : Prop :=
  List.Pairwise
    (fun x y => x.level = "project" → y.level = "project" → x.id ≠ y.id) rs

/-- `isAllowed(action, target, context)`: boolean projection of
`evaluate`. -/
def isAllowed (s : List Rule) (action : String) (target : String := "*")
    (ctx : Ctx := []) : Bool :=
  (evaluate s { action := some action, target := some target,
                context := some ctx, source := none }).allowed

/-! ### The built-in system rule set (`_loadSystemRules`) -/

/-- Built-in rule `system-boot-allow`. -/
def bootRule : Rule :=
  { id := "system-boot-allow"
    name := "Allow System Boot"
    priority := 1000
    level := "system"
    condition := { action := "system.boot", target := "*",
                   whenCond := some "always" }
    effect := { type := "allow",
                reason := some "System boot is always allowed" }
    enabled := true }

/-- Built-in rule `system-log-allow`. -/
def logRule : Rule :=
  { id := "system-log-allow"
    name := "Allow System Logging"
    priority := 1000
    level := "system"
    condition := { action := "system.log", target := "*",
                   whenCond := some "always" }
    effect := { type := "allow",
                reason := some "System logging is always allowed" }
    enabled := true }

/-- Built-in rule `system-debug-allow`. -/
def debugRule : Rule :=
  { id := "system-debug-allow"
    name := "Allow Debugger"
    priority := 1000
    level := "system"
    condition := { action := "system.debug", target := "*",
                   whenCond := some "always" }
    effect := { type := "allow",
                reason := some "Debugger access is always allowed" }
    enabled := true }

/-- Built-in rule `system-dangerous-deny` (present but disabled). -/
def dangerousRule : Rule :=
  { id := "system-dangerous-deny"
    name := "Deny Dangerous Actions"
    priority := 50
    level := "system"
    condition := { action := "*", target := "*",
                   whenCond := some "always" }
    effect := { type := "deny",
                reason := some "Action not explicitly allowed" }
    enabled := false }

/-- The store right after `init()`: the four system rules registered in
source order into an empty store. -/
def initStore : List Rule :=
  (register (register (register (register [] bootRule).2 logRule).2
      debugRule).2 dangerousRule).2

/-- The store invariant: priorities are pairwise descending (higher
priority first). -/
abbrev StoreSorted (s : List Rule) : Prop :=
  List.Pairwise (fun a b => b.priority ≤ a.priority) s

/-- Where a freshly pushed element ends up after the stable re-sort:
after every already-stored element of priority `≥ r.priority` (the
insertion-order tie-break) and before every element of strictly
smaller priority. -/
def insertTail (r : Rule) : List Rule → List Rule
  | [] => [r]
  | x :: xs =>
      if r.priority ≤ x.priority then x :: insertTail r xs
      else r :: x :: xs

/-! ### Concrete data used by the claim instances below -/

/-- A valid enabled allow-rule at priority 500 (registered first in the
tie-break scenario). -/
def tieAllowRule : Rule :=
  { id := "tie-allow"
    name := "Tie Allow"
    priority := 500
    level := "project"
    condition := { action := "widget.open", target := "*",
                   whenCond := some "always" }
    effect := { type := "allow", reason := some "tie allow wins" }
    enabled := true }

/-- A valid enabled deny-rule with the same priority and condition as
`tieAllowRule` (registered second). -/
def tieDenyRule : Rule :=
  { id := "tie-deny"
    name := "Tie Deny"
    priority := 500
    level := "project"
    condition := { action := "widget.open", target := "*",
                   whenCond := some "always" }
    effect := { type := "deny", reason := some "tie deny" }
    enabled := true }

/-- A request both tie rules match. -/
def tieRequest : Request :=
  { action := some "widget.open"
    target := some "w1"
    context := some []
    source := none }

/-- A structurally valid non-system rule carrying the id of the
built-in system rule `system-boot-allow`: `register` accepts it and
replaces the system rule in place. -/
def bootOverwriteRule : Rule :=
  { id := "system-boot-allow"
    name := "Boot Deny Override"
    priority := 1000
    level := "project"
    condition := { action := "system.boot", target := "*",
                   whenCond := some "always" }
    effect := { type := "deny", reason := some "Boot denied" }
    enabled := true }

/-- A rule whose `modify` transform always throws. -/
def modFailRule : Rule :=
  { id := "mod-fail"
    name := "Failing Modify"
    priority := 500
    level := "project"
    condition := { action := "widget.open", target := "*",
                   whenCond := some "always" }
    effect := { type := "modify", reason := some "rewrite it",
                transform := some (fun _ => Except.error "boom") }
    enabled := true }

/-- A rule accepted by the validator whose priority `5/2` is not an
integer (`mkRat 5 2` is `5/2`): the source checks only
`typeof === "number"` and the range. -/
def halfPriorityRule : Rule :=
  { id := "half-priority"
    name := "Half Priority"
    priority := mkRat 5 2
    level := "widget"
    condition := { action := "db.read", target := "*",
                   whenCond := some "always" }
    effect := { type := "allow", reason := some "fractional" }
    enabled := true }

/-- A valid project-level rule (used as set A in the reload scenario). -/
def projRuleA : Rule :=
  { id := "proj-a"
    name := "Project A"
    priority := 400
    level := "project"
    condition := { action := "db.read", target := "*",
                   whenCond := some "always" }
    effect := { type := "allow", reason := some "project a" }
    enabled := true }

/-- A valid project-level rule (used as set B in the reload scenario). -/
def projRuleB : Rule :=
  { id := "proj-b"
    name := "Project B"
    priority := 300
    level := "project"
    condition := { action := "db.write", target := "*",
                   whenCond := some "always" }
    effect := { type := "deny", reason := some "project b" }
    enabled := true }

/-- A valid project-level rule whose id collides with the system rule
`system-boot-allow`; loading it as a project rule replaces that system
rule. -/
def projCollideRule : Rule :=
  { id := "system-boot-allow"
    name := "Colliding Project Rule"
    priority := 800
    level := "project"
    condition := { action := "system.boot", target := "*",
                   whenCond := some "always" }
    effect := { type := "deny", reason := some "collided" }
    enabled := true }

/-- A valid enabled rule whose `when` predicate is the empty string:
the falsy gate `if (cond.when && cond.when !== "always")` skips the
predicate check entirely, so this rule is treated as matching. -/
def emptyWhenRule : Rule :=
  { id := "empty-when"
    name := "Empty When"
    priority := 500
    level := "project"
    condition := { action := "widget.open", target := "*",
                   whenCond := some "" }
    effect := { type := "allow", reason := some "empty when wins" }
    enabled := true }

/-! ### Ordering lemmas for the store -/

lemma mem_insertRule {y r : Rule} :
    ∀ {l : List Rule}, y ∈ insertRule r l ↔ y = r ∨ y ∈ l := by
  intro l
  induction l with
  | nil => simp [insertRule]
  | cons x xs ih =>
      by_cases h : x.priority ≤ r.priority
      · simp [insertRule, h]
      · simp [insertRule, h, ih]
        tauto

lemma insertRule_pairwise {r : Rule} :
    ∀ {l : List Rule}, StoreSorted l → StoreSorted (insertRule r l) := by
  intro l
  induction l with
  | nil => intro _; simp [insertRule]
  | cons x xs ih =>
      intro h
      obtain ⟨hx, hxs⟩ := List.pairwise_cons.mp h
      by_cases hp : x.priority ≤ r.priority
      · show StoreSorted (if x.priority ≤ r.priority then r :: x :: xs
          else x :: insertRule r xs)
        rw [if_pos hp]
        refine List.pairwise_cons.mpr ⟨?_, h⟩
        intro b hb
        rcases List.mem_cons.mp hb with hb | hb
        · exact hb ▸ hp
        · exact le_trans (hx b hb) hp
      · show StoreSorted (if x.priority ≤ r.priority then r :: x :: xs
          else x :: insertRule r xs)
        rw [if_neg hp]
        refine List.pairwise_cons.mpr ⟨?_, ih hxs⟩
        intro b hb
        rcases mem_insertRule.mp hb with hb | hb
        · exact hb ▸ le_of_not_le hp
        · exact hx b hb

lemma sortRules_sorted (l : List Rule) : StoreSorted (sortRules l) := by
  induction l with
  | nil => simp [sortRules]
  | cons x xs ih => exact insertRule_pairwise ih

lemma insertRule_eq_cons {r : Rule} {l : List Rule}
    (h : ∀ y ∈ l, y.priority ≤ r.priority) : insertRule r l = r :: l := by
  cases l with
  | nil => rfl
  | cons x xs =>
      show (if x.priority ≤ r.priority then r :: x :: xs
        else x :: insertRule r xs) = r :: x :: xs
      rw [if_pos (h x (List.mem_cons_self x xs))]

lemma insertTail_eq_cons {r : Rule} {l : List Rule}
    (h : ∀ y ∈ l, ¬r.priority ≤ y.priority) : insertTail r l = r :: l := by
  cases l with
  | nil => rfl
  | cons x xs =>
      show (if r.priority ≤ x.priority then x :: insertTail r xs
        else r :: x :: xs) = r :: x :: xs
      rw [if_neg (h x (List.mem_cons_self x xs))]

lemma sortRules_eq_of_sorted :
    ∀ {l : List Rule}, StoreSorted l → sortRules l = l := by
  intro l
  induction l with
  | nil => intro _; rfl
  | cons x xs ih =>
      intro h
      obtain ⟨hx, hxs⟩ := List.pairwise_cons.mp h
      show insertRule x (sortRules xs) = x :: xs
      rw [ih hxs, insertRule_eq_cons hx]

lemma insertRule_insertTail {x r : Rule} {xs : List Rule}
    (hx : ∀ b ∈ xs, b.priority ≤ x.priority) :
    insertRule x (insertTail r xs) = insertTail r (x :: xs) := by
  by_cases hp : r.priority ≤ x.priority
  · show insertRule x (insertTail r xs) =
      (if r.priority ≤ x.priority then x :: insertTail r xs
        else r :: x :: xs)
    rw [if_pos hp]
    cases xs with
    | nil =>
        show insertRule x [r] = x :: [r]
        show (if r.priority ≤ x.priority then x :: r :: []
          else r :: insertRule x []) = x :: [r]
        rw [if_pos hp]
    | cons y ys =>
        by_cases hy : r.priority ≤ y.priority
        · show insertRule x
            (if r.priority ≤ y.priority then y :: insertTail r ys
              else r :: y :: ys) = _
          rw [if_pos hy]
          show (if y.priority ≤ x.priority then x :: y :: insertTail r ys
            else y :: insertRule x (insertTail r ys)) = _
          rw [if_pos (hx y (List.mem_cons_self y ys))]
          show _ = x :: (if r.priority ≤ y.priority
            then y :: insertTail r ys else r :: y :: ys)
          rw [if_pos hy]
        · show insertRule x
            (if r.priority ≤ y.priority then y :: insertTail r ys
              else r :: y :: ys) = _
          rw [if_neg hy]
          show (if r.priority ≤ x.priority then x :: r :: y :: ys
            else r :: insertRule x (y :: ys)) = _
          rw [if_pos hp]
          show _ = x :: (if r.priority ≤ y.priority
            then y :: insertTail r ys else r :: y :: ys)
          rw [if_neg hy]
  · show insertRule x (insertTail r xs) =
      (if r.priority ≤ x.priority then x :: insertTail r xs
        else r :: x :: xs)
    rw [if_neg hp]
    have hlt : ∀ y ∈ xs, ¬r.priority ≤ y.priority := by
      intro y hy hle
      exact hp (le_trans hle (hx y hy))
    rw [insertTail_eq_cons hlt]
    show (if r.priority ≤ x.priority then x :: r :: xs
      else r :: insertRule x xs) = r :: x :: xs
    rw [if_neg hp, insertRule_eq_cons hx]

lemma sortRules_append_singleton {l : List Rule} (r : Rule)
    (h : StoreSorted l) : sortRules (l ++ [r]) = insertTail r l := by
  induction l with
  | nil => rfl
  | cons x xs ih =>
      obtain ⟨hx, hxs⟩ := List.pairwise_cons.mp h
      show insertRule x (sortRules (xs ++ [r])) = insertTail r (x :: xs)
      rw [ih hxs, insertRule_insertTail hx]

lemma insertTail_eq_takeDrop (r : Rule) :
    ∀ l : List Rule,
      insertTail r l =
        l.takeWhile (fun x => r.priority ≤ x.priority) ++
          r :: l.dropWhile (fun x => r.priority ≤ x.priority) := by
  intro l
  induction l with
  | nil => rfl
  | cons x xs ih =>
      by_cases hp : r.priority ≤ x.priority
      · show (if r.priority ≤ x.priority then x :: insertTail r xs
          else r :: x :: xs) = _
        rw [if_pos hp]
        simp [List.takeWhile_cons, List.dropWhile_cons, hp, ih]
      · show (if r.priority ≤ x.priority then x :: insertTail r xs
          else r :: x :: xs) = _
        rw [if_neg hp]
        simp [List.takeWhile_cons, List.dropWhile_cons, hp]

lemma dropWhile_rules_head {r : Rule} :
    ∀ {s : List Rule} {b : Rule} {bs : List Rule},
      s.dropWhile (fun y => r.priority ≤ y.priority) = b :: bs →
      ¬r.priority ≤ b.priority := by
  intro s
  induction s with
  | nil => intro b bs h; cases h
  | cons x xs ih =>
      intro b bs h
      rw [List.dropWhile_cons] at h
      by_cases hx : r.priority ≤ x.priority
      · rw [if_pos (by simpa using hx)] at h
        exact ih h
      · rw [if_neg (by simpa using hx)] at h
        cases h
        exact hx

lemma takeWhile_rules_mem {r : Rule} :
    ∀ {s : List Rule} {x : Rule},
      x ∈ s.takeWhile (fun y => r.priority ≤ y.priority) →
      r.priority ≤ x.priority := by
  intro s
  induction s with
  | nil => intro x hx; cases hx
  | cons y ys ih =>
      intro x hx
      rw [List.takeWhile_cons] at hx
      by_cases hy : r.priority ≤ y.priority
      · rw [if_pos (by simpa using hy)] at hx
        rcases List.mem_cons.mp hx with hx | hx
        · exact hx ▸ hy
        · exact ih hx
      · rw [if_neg (by simpa using hy)] at hx
        cases hx

lemma insertTail_append {r : Rule} :
    ∀ {l1 : List Rule} (l2 : List Rule),
      (∀ x ∈ l1, r.priority ≤ x.priority) →
      insertTail r (l1 ++ l2) = l1 ++ insertTail r l2 := by
  intro l1
  induction l1 with
  | nil => intro l2 _; rfl
  | cons x xs ih =>
      intro l2 h
      rw [List.cons_append]
      show (if r.priority ≤ x.priority then x :: insertTail r (xs ++ l2)
        else r :: x :: (xs ++ l2)) = _
      rw [if_pos (h x (List.mem_cons_self x xs)),
        ih l2 (fun y hy => h y (List.mem_cons_of_mem x hy))]
      rfl

lemma insertTail_pairwise {r : Rule} {l : List Rule} (h : StoreSorted l) :
    StoreSorted (insertTail r l) := by
  rw [← sortRules_append_singleton r h]
  exact sortRules_sorted (l ++ [r])

lemma mem_insertTail {y r : Rule} {l : List Rule} :
    y ∈ insertTail r l ↔ y = r ∨ y ∈ l := by
  have hl := List.takeWhile_append_dropWhile
    (p := fun x : Rule => decide (r.priority ≤ x.priority)) (l := l)
  rw [insertTail_eq_takeDrop]
  constructor
  · intro h
    rcases List.mem_append.mp h with h | h
    · refine Or.inr ?_
      rw [← hl]
      exact List.mem_append.mpr (Or.inl h)
    · rcases List.mem_cons.mp h with h | h
      · exact Or.inl h
      · refine Or.inr ?_
        rw [← hl]
        exact List.mem_append.mpr (Or.inr h)
  · intro h
    rcases h with h | h
    · exact List.mem_append.mpr (Or.inr (h ▸ List.mem_cons_self r _))
    · rw [← hl] at h
      rcases List.mem_append.mp h with h | h
      · exact List.mem_append.mpr (Or.inl h)
      · exact List.mem_append.mpr (Or.inr (List.mem_cons_of_mem r h))

/-! ### Find / filter lemmas -/

lemma find?_filter {a : Type} (p q : a → Bool)
    (h : ∀ x, q x = true → p x = true) :
    ∀ l : List a, (l.filter p).find? q = l.find? q := by
  intro l
  induction l with
  | nil => rfl
  | cons x xs ih =>
      by_cases hp : p x
      · rw [List.filter_cons_of_pos hp]
        by_cases hq : q x
        · rw [List.find?_cons_of_pos _ hq, List.find?_cons_of_pos _ hq]
        · rw [List.find?_cons_of_neg _ hq, List.find?_cons_of_neg _ hq, ih]
      · rw [List.filter_cons_of_neg hp]
        have hq : ¬q x = true := by
          intro hqx
          exact hp (h x hqx)
        rw [List.find?_cons_of_neg _ hq, ih]

lemma find?_append_none {a : Type} {q : a → Bool} :
    ∀ {l1 : List a} (l2 : List a), (∀ x ∈ l1, q x = false) →
      (l1 ++ l2).find? q = l2.find? q := by
  intro l1
  induction l1 with
  | nil => intro l2 _; rfl
  | cons x xs ih =>
      intro l2 h
      rw [List.cons_append,
        List.find?_cons_of_neg _
          (by simp [h x (List.mem_cons_self x xs)]),
        ih l2 (fun y hy => h y (List.mem_cons_of_mem x hy))]

/-! ### Evaluation lemmas -/

lemma ruleWins_imp_applicable {r : Rule} {a t : String} {ctx : Ctx}
    (h : ruleWins a t ctx r = true) : ruleApplicable r a t ctx = true := by
  unfold ruleWins at h
  rw [Bool.and_eq_true] at h
  obtain ⟨he, hc⟩ := h
  unfold matchesCondition at hc
  split_ifs at hc with hA hT hW
  unfold ruleApplicable
  rw [if_neg (by simp [he] : ¬r.enabled = false), if_neg hA, if_neg hT,
    if_neg hW]

/-- The deny-by-absence result. -/
def noMatchResult : EvalResult :=
  { allowed := false
    reason := "No matching rule found"
    modifiedAction := none }

lemma evaluate_eq_find {s : List Rule} {req : Request} {a : String}
    (ha : req.action = some a) (hne : a ≠ "")
    (htruthy : actionsTruthy a = true) :
    evaluate s req =
      match s.find? (ruleWins a (req.target.getD "*") (req.context.getD []))
        with
      | some r => applyEffect r.effect req
      | none => noMatchResult := by
  unfold evaluate
  rw [ha]
  dsimp only
  rw [if_neg hne, if_neg (by simp [htruthy])]
  rw [getApplicableRules,
    find?_filter _ _ (fun r hr => ruleWins_imp_applicable hr) s]
  rfl

/-! ### Validation and registration lemmas -/

lemma validateRule_true_iff (r : Rule) :
    validateRule r = true ↔
      (¬r.id = "" ∧ ¬r.name = "" ∧
        ¬(r.priority < 1 ∨ 1000 < r.priority) ∧
        ¬HIERARCHY.contains r.level = false ∧
        ¬r.condition.action = "" ∧
        ¬(["allow", "deny", "modify"].contains r.effect.type) = false) := by
  unfold validateRule
  split_ifs with h1 h2 h3 h4 h5 h6
  · exact iff_of_false (by simp) (fun hc => hc.1 h1)
  · exact iff_of_false (by simp) (fun hc => hc.2.1 h2)
  · exact iff_of_false (by simp) (fun hc => hc.2.2.1 h3)
  · exact iff_of_false (by simp) (fun hc => hc.2.2.2.1 h4)
  · exact iff_of_false (by simp) (fun hc => hc.2.2.2.2.1 h5)
  · exact iff_of_false (by simp) (fun hc => hc.2.2.2.2.2 h6)
  · exact iff_of_true rfl ⟨h1, h2, h3, h4, h5, h6⟩

lemma register_fresh {s : List Rule} {r : Rule}
    (hv : validateRule r = true) (hfresh : ∀ x ∈ s, x.id ≠ r.id) :
    register s r = (true, sortRules (s ++ [r])) := by
  have hid : ¬r.id = "" := ((validateRule_true_iff r).mp hv).1
  have hany : ¬s.any (fun x => x.id = r.id) = true := by
    intro h
    simp only [List.any_eq_true, decide_eq_true_eq] at h
    obtain ⟨x, hx, hxe⟩ := h
    exact hfresh x hx hxe
  unfold register
  rw [if_neg hid, if_neg (by simp [hv]), if_neg hany]

lemma register_fresh_store {s : List Rule} {r : Rule}
    (hs : StoreSorted s) (hv : validateRule r = true)
    (hfresh : ∀ x ∈ s, x.id ≠ r.id) :
    (register s r).2 = insertTail r s := by
  rw [register_fresh hv hfresh]
  exact sortRules_append_singleton r hs

lemma register_pairwise {s : List Rule} (r : Rule) (hs : StoreSorted s) :
    StoreSorted (register s r).2 := by
  unfold register
  split_ifs with h1 h2 h3
  · exact hs
  · exact hs
  · exact sortRules_sorted _
  · exact sortRules_sorted _

lemma unregister_cons (x : Rule) (xs : List Rule) (rid : String) :
    unregister (x :: xs) rid =
      if x.id = rid then
        (if x.level = "system" then (false, x :: xs) else (true, xs))
      else ((unregister xs rid).1, x :: (unregister xs rid).2) := rfl

lemma unregister_sublist (rid : String) :
    ∀ s : List Rule, (unregister s rid).2.Sublist s := by
  intro s
  induction s with
  | nil => exact List.Sublist.refl []
  | cons x xs ih =>
      rw [unregister_cons]
      split_ifs with h1 h2
      · exact List.Sublist.refl _
      · exact List.sublist_cons_self x xs
      · exact List.Sublist.cons₂ x ih

lemma unregister_pairwise {s : List Rule} (rid : String)
    (hs : StoreSorted s) : StoreSorted (unregister s rid).2 :=
  List.Pairwise.sublist (unregister_sublist rid s) hs

lemma unregister_shape (rid : String) :
    ∀ s : List Rule,
      (unregister s rid).2 = s ∨
        ∃ A x B, s = A ++ x :: B ∧ x.id = rid ∧
          (unregister s rid).2 = A ++ B := by
  intro s
  induction s with
  | nil => exact Or.inl rfl
  | cons x xs ih =>
      rw [unregister_cons]
      split_ifs with h1 h2
      · exact Or.inl rfl
      · exact Or.inr ⟨[], x, xs, rfl, h1, rfl⟩
      · rcases ih with ih | ⟨A, y, B, hsplit, hy, hres⟩
        · refine Or.inl ?_
          show x :: (unregister xs rid).2 = x :: xs
          rw [ih]
        · refine Or.inr ⟨x :: A, y, B, ?_, hy, ?_⟩
          · rw [hsplit]
            rfl
          · show x :: (unregister xs rid).2 = x :: A ++ B
            rw [hres]
            rfl

/-! ### Priority tie-break lemmas -/

lemma dropWhile_lt {s : List Rule} {r : Rule} (hs : StoreSorted s) :
    ∀ x ∈ s.dropWhile (fun y => r.priority ≤ y.priority),
      x.priority < r.priority := by
  cases hd : s.dropWhile (fun y => r.priority ≤ y.priority) with
  | nil =>
      intro x hx
      cases hx
  | cons b bs =>
      intro x hx
      have hb : ¬r.priority ≤ b.priority := dropWhile_rules_head hd
      have hbs : StoreSorted (b :: bs) :=
        hd ▸ List.Pairwise.sublist (List.dropWhile_sublist _) hs
      rcases List.mem_cons.mp hx with hx | hx
      · rw [hx]
        exact lt_of_not_le hb
      · obtain ⟨hball, _⟩ := List.pairwise_cons.mp hbs
        exact lt_of_le_of_lt (hball x hx) (lt_of_not_le hb)

lemma insertTail_insertTail {s : List Rule} {r1 r2 : Rule}
    (hs : StoreSorted s) (hpri : r1.priority = r2.priority) :
    insertTail r2 (insertTail r1 s) =
      s.takeWhile (fun x => r1.priority ≤ x.priority) ++
        r1 :: r2 :: s.dropWhile (fun x => r1.priority ≤ x.priority) := by
  rw [insertTail_eq_takeDrop r1 s]
  have hAmem :
      ∀ x ∈ s.takeWhile (fun x => r1.priority ≤ x.priority),
        r2.priority ≤ x.priority := by
    intro x hx
    rw [← hpri]
    exact takeWhile_rules_mem hx
  rw [insertTail_append
    (r1 :: s.dropWhile (fun x => r1.priority ≤ x.priority)) hAmem]
  congr 1
  have h21 : r2.priority ≤ r1.priority := hpri ▸ le_refl _
  show (if r2.priority ≤ r1.priority
    then r1 :: insertTail r2 (s.dropWhile (fun x => r1.priority ≤ x.priority))
    else r2 :: r1 :: s.dropWhile (fun x => r1.priority ≤ x.priority)) = _
  rw [if_pos h21]
  congr 1
  refine insertTail_eq_cons ?_
  intro y hy hle
  have := dropWhile_lt hs y hy
  rw [hpri] at this
  exact absurd hle (not_le_of_lt this)

/-! ### Claim theorems -/

/-- C1: For every pair of enabled rules with equal priority and
conflicting effects whose conditions both match a request (and which
are the only matching rules, registered in that order under fresh
ids), `evaluate` deterministically returns the effect of the rule that
was registered first; moreover the store's descending-priority order
is preserved by every `register` and `unregister`, a fresh `register`
inserts the new rule exactly after all rules of priority `≥` its own
(the insertion-order tie-break) without reordering the rest, and
`unregister` removes at most one rule without reordering the rest. -/
theorem evaluate_tie_break_first_registered :
    (∀ (s : List Rule) (r1 r2 : Rule) (req : Request) (a : String),
      StoreSorted s →
      validateRule r1 = true → validateRule r2 = true →
      r1.enabled = true → r2.enabled = true →
      r1.priority = r2.priority →
      ((r1.effect.type = "allow" ∧ r2.effect.type = "deny") ∨
        (r1.effect.type = "deny" ∧ r2.effect.type = "allow")) →
      (∀ x ∈ s, x.id ≠ r1.id) → (∀ x ∈ s, x.id ≠ r2.id) →
      r1.id ≠ r2.id →
      req.action = some a → a ≠ "" → actionsTruthy a = true →
      matchesCondition r1.condition a (req.target.getD "*")
        (req.context.getD []) = true →
      matchesCondition r2.condition a (req.target.getD "*")
        (req.context.getD []) = true →
      (∀ x ∈ s,
        ruleWins a (req.target.getD "*") (req.context.getD []) x = false) →
      evaluate (register (register s r1).2 r2).2 req =
        applyEffect r1.effect req) ∧
    (∀ (s : List Rule) (r : Rule),
      StoreSorted s → StoreSorted (register s r).2) ∧
    (∀ (s : List Rule) (rid : String),
      StoreSorted s → StoreSorted (unregister s rid).2) ∧
    (∀ (s : List Rule) (r : Rule),
      StoreSorted s → validateRule r = true → (∀ x ∈ s, x.id ≠ r.id) →
      ∃ A B, s = A ++ B ∧ (register s r).2 = A ++ r :: B ∧
        (∀ x ∈ A, r.priority ≤ x.priority) ∧
        (∀ x ∈ B, x.priority < r.priority)) ∧
    (∀ (s : List Rule) (rid : String),
      (unregister s rid).2 = s ∨
        ∃ A x B, s = A ++ x :: B ∧ x.id = rid ∧
          (unregister s rid).2 = A ++ B) := by
  refine ⟨?_, ?_, ?_, ?_, ?_⟩
  · intro s r1 r2 req a hs hv1 hv2 he1 he2 hpri heff hf1 hf2 hne12 ha
      hane htr hm1 hm2 hnowin
    have h1 : (register s r1).2 = insertTail r1 s :=
      register_fresh_store hs hv1 hf1
    have hs1 : StoreSorted (insertTail r1 s) := insertTail_pairwise hs
    have hf2' : ∀ x ∈ insertTail r1 s, x.id ≠ r2.id := by
      intro x hx
      rcases mem_insertTail.mp hx with hx | hx
      · exact hx ▸ hne12
      · exact hf2 x hx
    have h2 : (register (register s r1).2 r2).2 =
        insertTail r2 (insertTail r1 s) := by
      rw [h1]
      exact register_fresh_store hs1 hv2 hf2'
    rw [h2, insertTail_insertTail hs hpri, evaluate_eq_find ha hane htr]
    have hTfalse :
        ∀ x ∈ s.takeWhile (fun x => r1.priority ≤ x.priority),
          ruleWins a (req.target.getD "*") (req.context.getD []) x =
            false := by
      intro x hx
      exact hnowin x ((List.takeWhile_sublist _).subset hx)
    rw [find?_append_none _ hTfalse]
    rw [List.find?_cons_of_pos _
      (show ruleWins a (req.target.getD "*") (req.context.getD []) r1 =
          true by
        unfold ruleWins
        rw [he1, hm1]
        rfl)]
  · intro s r hs
    exact register_pairwise r hs
  · intro s rid hs
    exact unregister_pairwise rid hs
  · intro s r hs hv hf
    refine ⟨s.takeWhile (fun x => r.priority ≤ x.priority),
      s.dropWhile (fun x => r.priority ≤ x.priority),
      (List.takeWhile_append_dropWhile _ s).symm, ?_, ?_, ?_⟩
    · rw [register_fresh_store hs hv hf, insertTail_eq_takeDrop]
    · intro x hx
      exact takeWhile_rules_mem hx
    · intro x hx
      exact dropWhile_lt hs x hx
  · intro s rid
    exact unregister_shape rid s

/-- C1 witness: on the empty store, registering the equal-priority
allow rule first and the deny rule second makes `evaluate` return the
allow effect. -/
theorem evaluate_tie_break_first_registered_witness :
    evaluate (register (register [] tieAllowRule).2 tieDenyRule).2
        tieRequest =
      applyEffect tieAllowRule.effect tieRequest :=
  evaluate_tie_break_first_registered.1 [] tieAllowRule tieDenyRule
    tieRequest "widget.open" List.Pairwise.nil rfl rfl rfl rfl rfl
    (Or.inl ⟨rfl, rfl⟩)
    (fun x hx => absurd hx (List.not_mem_nil x))
    (fun x hx => absurd hx (List.not_mem_nil x))
    (by decide) rfl (by decide) rfl rfl rfl
    (fun x hx => absurd hx (List.not_mem_nil x))

/-- C2 counterexample: at the claim's own instance the engine's
default-deny reason is "No matching rule found" (capital N); the
result is not the lowercase `{allowed: false, reason: "no matching
rule found"}` the claim states. -/
theorem default_deny_reason_capitalization :
    evaluate initStore
        { action := some "project.save", target := some "p1",
          context := none, source := none } ≠
      { allowed := false, reason := "no matching rule found",
        modifiedAction := none } ∧
    evaluate initStore
        { action := some "project.save", target := some "p1",
          context := none, source := none } =
      { allowed := false, reason := "No matching rule found",
        modifiedAction := none } := by
  constructor
  · decide
  · decide

/-- C2 (amended): for every request whose action is in the taxonomy
and for which no enabled rule's full condition matches, `evaluate`
returns exactly `{allowed := false, reason := "No matching rule
found"}` (capital N, as the source spells it); in particular this is
the result of `evaluate({action := "project.save", target := "p1"})`
on the built-in system rules. -/
theorem default_deny_no_match :
    (∀ (s : List Rule) (req : Request) (a : String),
      req.action = some a → ACTIONS.contains a = true →
      (∀ r ∈ s, ¬(r.enabled = true ∧
        matchesCondition r.condition a (req.target.getD "*")
          (req.context.getD []) = true)) →
      evaluate s req = noMatchResult) ∧
    evaluate initStore
        { action := some "project.save", target := some "p1",
          context := none, source := none } = noMatchResult := by
  constructor
  · intro s req a ha hcont hnone
    have hmem : a ∈ ACTIONS := List.elem_iff.mp hcont
    have hane : a ≠ "" := by
      intro h
      rw [h] at hmem
      exact absurd hmem (by decide)
    have htr : actionsTruthy a = true := by
      unfold actionsTruthy
      rw [hcont, Bool.true_or]
    rw [evaluate_eq_find ha hane htr]
    have hfind :
        s.find? (ruleWins a (req.target.getD "*") (req.context.getD []))
          = none := by
      refine List.find?_eq_none.mpr ?_
      intro x hx hwin
      unfold ruleWins at hwin
      rw [Bool.and_eq_true] at hwin
      exact hnone x hx ⟨hwin.1, hwin.2⟩
    rw [hfind]
  · decide

/-- C2 witness: the general default-deny theorem applied to the
built-in store and the `project.save` request. -/
theorem default_deny_no_match_witness :
    evaluate initStore
        { action := some "project.save", target := some "p1",
          context := none, source := none } = noMatchResult :=
  default_deny_no_match.1 initStore
    { action := some "project.save", target := some "p1",
      context := none, source := none } "project.save" rfl (by decide)
    (by decide)

/-- C3 counterexample: `register` accepts a valid non-system rule
carrying the id of the system rule `system-boot-allow` (returning
`true`, not `false`), overwrites that system rule in place, and a
subsequent `evaluate({action := "system.boot"})` is denied. -/
theorem system_rule_overwrite :
    (register initStore bootOverwriteRule).1 = true ∧
    evaluate (register initStore bootOverwriteRule).2
        { action := some "system.boot", target := none, context := none,
          source := none } =
      { allowed := false, reason := "Boot denied",
        modifiedAction := none } := by
  constructor
  · decide
  · decide

/-- C3 (amended): system-level rules are protected from removal only:
`unregister` of a rule whose stored entry is system-level returns
`false` and leaves the store unchanged, `clear` retains exactly the
system rules, `unregister("system-boot-allow")` leaves
`evaluate({action := "system.boot"})` allowed — but `register` does
not refuse replacement: a valid rule whose id matches any existing
rule (system ones included) replaces it in place. -/
theorem system_rule_protection :
    (∀ (s : List Rule) (rid : String) (x : Rule),
      s.find? (fun r => r.id = rid) = some x → x.level = "system" →
      unregister s rid = (false, s)) ∧
    (∀ (s : List Rule) (x : Rule),
      x ∈ clear s ↔ x ∈ s ∧ x.level = "system") ∧
    unregister initStore "system-boot-allow" = (false, initStore) ∧
    evaluate (unregister initStore "system-boot-allow").2
        { action := some "system.boot", target := none, context := none,
          source := none } =
      { allowed := true, reason := "System boot is always allowed",
        modifiedAction := none } ∧
    (∀ (s : List Rule) (r : Rule),
      validateRule r = true → s.any (fun x => x.id = r.id) = true →
      register s r = (true, sortRules (replaceById s r))) := by
  refine ⟨?_, ?_, ?_, ?_, ?_⟩
  · intro s rid x
    induction s with
    | nil =>
        intro hfind _
        cases hfind
    | cons y ys ih =>
        intro hfind hsys
        rw [unregister_cons]
        by_cases hy : y.id = rid
        · rw [List.find?_cons_of_pos _ (by simp [hy])] at hfind
          cases hfind
          rw [if_pos hy, if_pos hsys]
        · rw [List.find?_cons_of_neg _ (by simp [hy])] at hfind
          rw [if_neg hy, ih hfind hsys]
  · intro s x
    simp [clear, List.mem_filter]
  · rfl
  · decide
  · intro s r hv hany
    have hid : ¬r.id = "" := ((validateRule_true_iff r).mp hv).1
    unfold register
    rw [if_neg hid, if_neg (by simp [hv]), if_pos hany]

/-- C3 witness: the in-place-replacement clause applied to the
built-in store and the colliding rule. -/
theorem system_rule_protection_witness :
    register initStore bootOverwriteRule =
      (true, sortRules (replaceById initStore bootOverwriteRule)) :=
  system_rule_protection.2.2.2.2 initStore bootOverwriteRule rfl rfl

/-- C4 counterexample: a matched `modify` rule whose transform throws
makes `evaluate` return reason "Rule transform failed" (capital R),
not the lowercase "rule transform failed" the claim states. -/
theorem modify_transform_reason_case :
    evaluate [modFailRule]
        { action := some "widget.open", target := some "w1",
          context := none, source := none } =
      { allowed := false, reason := "Rule transform failed",
        modifiedAction := none } ∧
    "Rule transform failed" ≠ "rule transform failed" := by
  constructor
  · decide
  · decide

/-- C4 (amended): whenever the winning rule's effect is a `modify`
whose attached transform throws on the request, `evaluate` returns
exactly `{allowed := false, reason := "Rule transform failed"}` (the
exception is caught, never escaping `evaluate`, which is a total
function here); and a `modify` effect with no transform attached
returns `allowed := true` with the (truthy) fallback payload as
`modifiedAction`. -/
theorem modify_transform_semantics :
    (∀ (s : List Rule) (req : Request) (a : String) (r : Rule)
        (f : Request → Except String JsVal) (msg : String),
      req.action = some a → a ≠ "" → actionsTruthy a = true →
      s.find? (ruleWins a (req.target.getD "*") (req.context.getD []))
        = some r →
      r.effect.type = "modify" → r.effect.transform = some f →
      f req = Except.error msg →
      evaluate s req =
        { allowed := false, reason := "Rule transform failed",
          modifiedAction := none }) ∧
    (∀ (eff : Effect) (req : Request) (v : JsVal),
      eff.type = "modify" → eff.transform = none →
      eff.modifiedAction = some v → jsValFalsy v = false →
      applyEffect eff req =
        { allowed := true,
          reason := reasonOr eff.reason "Action modified by rule",
          modifiedAction := some v }) := by
  constructor
  · intro s req a r f msg ha hane htr hfind htype htrans herr
    rw [evaluate_eq_find ha hane htr, hfind]
    show applyEffect r.effect req = _
    unfold applyEffect
    rw [if_neg (by simp [htype]), if_neg (by simp [htype]),
      if_pos htype, htrans]
    dsimp only
    rw [herr]
  · intro eff req v htype htrans hmod hfalsy
    unfold applyEffect
    rw [if_neg (by simp [htype]), if_neg (by simp [htype]),
      if_pos htype, htrans, hmod]
    dsimp only
    rw [if_neg (by simp [hfalsy])]

/-- C4 witness: the transform-failure clause applied to a store
holding exactly the throwing modify rule. -/
theorem modify_transform_semantics_witness :
    evaluate [modFailRule]
        { action := some "widget.open", target := some "w1",
          context := none, source := none } =
      { allowed := false, reason := "Rule transform failed",
        modifiedAction := none } :=
  modify_transform_semantics.1 [modFailRule]
    { action := some "widget.open", target := some "w1",
      context := none, source := none } "widget.open" modFailRule
    (fun _ => Except.error "boom") "boom" rfl (by decide) rfl rfl rfl
    rfl rfl

/-- C5: evaluating the code at the failing input — the action
"toString" is outside the taxonomy (and is not "*"), yet, because the
source tests membership with a prototype-chain object lookup
(`this.ACTIONS[action]` is the inherited, truthy
`Object.prototype.toString`), the request is not rejected as an
unknown action: it falls through to rule matching and returns the
default-deny result, whose reason does not name the unknown action. -/
theorem unknown_action_prototype_leak :
    ACTIONS.contains "toString" = false ∧
    actionsTruthy "toString" = true ∧
    evaluate initStore
        { action := some "toString", target := some "x", context := none,
          source := none } = noMatchResult ∧
    noMatchResult.reason ≠ "Unknown action: toString" := by
  refine ⟨?_, ?_, ?_, ?_⟩
  · decide
  · decide
  · decide
  · decide

/-- C6: evaluating the code at the failing input — the glob pattern
"widget.*" does match "widget.clock" and does not match "app.clock"
(as the claim's examples say), but the source does not escape the "."
metacharacter before substituting the wildcard, so the pattern also
matches "widgetXclock", where an escaped (literal) "." would not. -/
theorem glob_metachar_unescaped :
    matchesTarget "widget.*" "widget.clock" = true ∧
    matchesTarget "widget.*" "app.clock" = false ∧
    matchesTarget "widget.*" "widgetXclock" = true := by
  refine ⟨?_, ?_, ?_⟩
  · decide
  · decide
  · decide

/-! ### When-predicate lemmas (C7, C8 machinery) -/

lemma string_data_inj {a b : String} (h : a.data = b.data) : a = b := by
  cases a
  cases b
  exact congrArg String.mk h

lemma matchesWhen_mode (v : String) (ctx : Ctx) :
    matchesWhen ("mode:" ++ v) ctx =
      ((ctxGet ctx "mode" == some v) ||
        (ctxGet ctx "activeMode" == some v)) := by
  have hne : ("mode:" ++ v) ≠ "always" := by
    intro h
    have hd := congrArg String.data h
    rw [String.data_append] at hd
    have h2 : 'm' :: 'o' :: 'd' :: 'e' :: ':' :: v.data =
        ['a', 'l', 'w', 'a', 'y', 's'] := hd
    injection h2 with h3 _
    exact absurd h3 (by decide)
  have hdata : ("mode:" ++ v).data =
      'm' :: 'o' :: 'd' :: 'e' :: ':' :: v.data := by
    rw [String.data_append]
    rfl
  unfold matchesWhen
  rw [if_neg hne, hdata]
  rfl

lemma matchesWhen_eq_false {w : String} (ctx : Ctx) (hna : w ≠ "always")
    (hnm : ∀ v, w ≠ "mode:" ++ v) : matchesWhen w ctx = false := by
  unfold matchesWhen
  rw [if_neg hna]
  split
  · rename_i rest heq
    exfalso
    apply hnm (String.mk rest)
    apply string_data_inj
    rw [heq, String.data_append]
    rfl
  · rfl

lemma matchesCondition_when_fails {c : Condition} {w : String}
    (a t : String) (ctx : Ctx) (hw : c.whenCond = some w) (hne0 : w ≠ "")
    (hna : w ≠ "always") (hnm : ∀ v, w ≠ "mode:" ++ v) :
    matchesCondition c a t ctx = false := by
  unfold matchesCondition
  by_cases hA : c.action ≠ "*" ∧ c.action ≠ a
  · rw [if_pos hA]
  · rw [if_neg hA]
    by_cases hT : c.target ≠ "*" ∧ matchesTarget c.target t = false
    · rw [if_pos hT]
    · rw [if_neg hT]
      have hgate : whenGateOk c.whenCond ctx = false := by
        rw [hw]
        unfold whenGateOk
        dsimp only
        rw [if_neg hne0, if_neg hna]
        exact matchesWhen_eq_false ctx hna hnm
      rw [if_pos hgate]

/-- C7 counterexample: the empty predicate string refutes the claim
as stated — `_matchesWhen` itself fails closed on `""`, but the
engine's falsy gate `if (cond.when && cond.when !== "always")` skips
the predicate check for the falsy `""`, so an enabled rule carrying
`when: ""` is treated as matching and wins the evaluation: the engine
defaults to permissive instead of falling through to default-deny. -/
theorem empty_when_predicate_permissive :
    matchesWhen "" [] = false ∧
    evaluate [emptyWhenRule]
        { action := some "widget.open", target := some "w1",
          context := some [], source := none } =
      { allowed := true, reason := "empty when wins",
        modifiedAction := none } := by
  constructor
  · decide
  · decide

/-- C7 (amended): the predicate "always" matches every context;
"mode:<v>" matches exactly when the context's `mode` or `activeMode`
equals `v`; every other non-empty predicate string fails closed —
`_matchesWhen` (a total function, so it never throws) returns
`false`, never a permissive default — and a rule whose `when` is such
a string never satisfies `_matchesCondition`, so the engine falls
through to the next applicable rule or to default-deny.  The empty
predicate string is the one exception: the shared falsy gate skips
the check, so a rule with `when: ""` is treated as matching
(permissive) even though `_matchesWhen` on `""` alone fails closed. -/
theorem when_predicate_semantics :
    (∀ ctx : Ctx, matchesWhen "always" ctx = true) ∧
    (∀ (v : String) (ctx : Ctx),
      matchesWhen ("mode:" ++ v) ctx =
        ((ctxGet ctx "mode" == some v) ||
          (ctxGet ctx "activeMode" == some v))) ∧
    (∀ (w : String) (ctx : Ctx),
      w ≠ "always" → (∀ v, w ≠ "mode:" ++ v) →
      matchesWhen w ctx = false) ∧
    (∀ (c : Condition) (a t : String) (ctx : Ctx) (w : String),
      c.whenCond = some w → w ≠ "" → w ≠ "always" →
      (∀ v, w ≠ "mode:" ++ v) → matchesCondition c a t ctx = false) ∧
    (∀ ctx : Ctx,
      whenGateOk (some "") ctx = true ∧ matchesWhen "" ctx = false) := by
  refine ⟨?_, ?_, ?_, ?_, ?_⟩
  · intro ctx
    rfl
  · intro v ctx
    exact matchesWhen_mode v ctx
  · intro w ctx hna hnm
    exact matchesWhen_eq_false ctx hna hnm
  · intro c a t ctx w hw hne0 hna hnm
    exact matchesCondition_when_fails a t ctx hw hne0 hna hnm
  · intro ctx
    exact ⟨rfl, rfl⟩

/-- C7 witness: the fail-closed clause at the concrete predicate
"sometimes" (not "always", not of the "mode:" shape) and a concrete
context, the two positive clauses at "mode:edit", and the
empty-predicate gate clause at a concrete context. -/
theorem when_predicate_semantics_witness :
    matchesWhen "always" [("mode", "runner")] = true ∧
    matchesWhen ("mode:" ++ "edit") [("mode", "edit")] =
      ((ctxGet [("mode", "edit")] "mode" == some "edit") ||
        (ctxGet [("mode", "edit")] "activeMode" == some "edit")) ∧
    (whenGateOk (some "") [("mode", "edit")] = true ∧
      matchesWhen "" [("mode", "edit")] = false) ∧
    matchesWhen "sometimes" [("mode", "edit")] = false := by
  refine ⟨when_predicate_semantics.1 [("mode", "runner")],
    when_predicate_semantics.2.1 "edit" [("mode", "edit")],
    when_predicate_semantics.2.2.2.2 [("mode", "edit")],
    when_predicate_semantics.2.2.1 "sometimes" [("mode", "edit")]
      (by decide) ?_⟩
  intro v h
  have hd := congrArg String.data h
  rw [String.data_append] at hd
  have h2 : ['s', 'o', 'm', 'e', 't', 'i', 'm', 'e', 's'] =
      'm' :: 'o' :: 'd' :: 'e' :: ':' :: v.data := hd
  injection h2 with h3 _
  exact absurd h3 (by decide)

/-- C8 counterexample: the validator (and hence `register`) accepts a
rule whose priority `5/2` is in the range but is not an integer, so
"accepts iff the priority is an integer in [1,1000]" fails as stated. -/
theorem priority_non_integer_accepted :
    (register [] halfPriorityRule).1 = true ∧
    (∀ n : ℤ, halfPriorityRule.priority ≠ (n : ℚ)) := by
  constructor
  · decide
  · intro n h
    have hd := congrArg Rat.den h
    rw [Rat.den_intCast] at hd
    exact absurd hd (by decide)

/-- C8 (amended): `register` accepts a candidate rule if and only if
its id and name are non-empty, its priority is a number in the range
[1,1000] (the source checks `typeof === "number"` and the range only —
no integrality), its level is in the hierarchy set, its condition's
action pattern is non-empty and its effect type is one of
allow/deny/modify (the `typeof` checks on condition/effect/enabled are
vacuous on this typed model); on any validation failure it returns
`false` — it is a total function, so it never throws — and the store
is unchanged. -/
theorem register_validation :
    ∀ (s : List Rule) (r : Rule),
      ((register s r).1 = true ↔
        (r.id ≠ "" ∧ r.name ≠ "" ∧ 1 ≤ r.priority ∧ r.priority ≤ 1000 ∧
          HIERARCHY.contains r.level = true ∧ r.condition.action ≠ "" ∧
          (["allow", "deny", "modify"].contains r.effect.type) = true)) ∧
      ((register s r).1 = false → (register s r).2 = s) := by
  intro s r
  constructor
  · constructor
    · intro h
      have hv : validateRule r = true := by
        by_cases hval : validateRule r = true
        · exact hval
        · exfalso
          unfold register at h
          by_cases hid : r.id = ""
          · rw [if_pos hid] at h
            exact absurd h (by simp)
          · rw [if_neg hid, if_pos (Bool.eq_false_iff.mpr hval)] at h
            exact absurd h (by simp)
      obtain ⟨h1, h2, h3, h4, h5, h6⟩ := (validateRule_true_iff r).mp hv
      push_neg at h3
      refine ⟨h1, h2, h3.1, h3.2, ?_, h5, ?_⟩
      · cases hb : HIERARCHY.contains r.level
        · exact absurd hb h4
        · rfl
      · cases hb : (["allow", "deny", "modify"].contains r.effect.type)
        · exact absurd hb h6
        · rfl
    · intro hc
      have hv : validateRule r = true := by
        refine (validateRule_true_iff r).mpr
          ⟨hc.1, hc.2.1, ?_, ?_, hc.2.2.2.2.2.1, ?_⟩
        · push_neg
          exact ⟨hc.2.2.1, hc.2.2.2.1⟩
        · intro hf
          rw [hc.2.2.2.2.1] at hf
          exact Bool.noConfusion hf
        · intro hf
          rw [hc.2.2.2.2.2.2] at hf
          exact Bool.noConfusion hf
      unfold register
      rw [if_neg hc.1, if_neg (by simp [hv])]
      by_cases hany : s.any (fun x => x.id = r.id) = true
      · rw [if_pos hany]
      · rw [if_neg hany]
  · intro h
    unfold register at h ⊢
    split_ifs at h ⊢ <;> rfl

/-- C8 witness: the acceptance direction at a concrete valid rule and
the rejection direction at a concrete invalid rule (empty id), whose
registration leaves the store unchanged. -/
theorem register_validation_witness :
    (register [] tieAllowRule).1 = true ∧
    (register [tieAllowRule]
        { tieDenyRule with id := "" }).2 = [tieAllowRule] := by
  constructor
  · exact (register_validation [] tieAllowRule).1.mpr
      ⟨by decide, by decide, by decide, by decide, by decide, by decide,
        by decide⟩
  · exact (register_validation [tieAllowRule]
      { tieDenyRule with id := "" }).2 (by decide)

/-! ### Project-rule reload lemmas (C9, C10) -/

lemma insertTail_filter_ne {r : Rule} {l : List Rule} {p : Rule → Bool}
    (hp : p r = false) : (insertTail r l).filter p = l.filter p := by
  rw [insertTail_eq_takeDrop, List.filter_append,
    List.filter_cons_of_neg (by simp [hp]), ← List.filter_append,
    List.takeWhile_append_dropWhile]

lemma insertTail_filter_eq {r : Rule} {l : List Rule} {p : Rule → Bool}
    (hp : p r = true) :
    List.Perm ((insertTail r l).filter p) (r :: l.filter p) := by
  rw [insertTail_eq_takeDrop, List.filter_append,
    List.filter_cons_of_pos hp]
  refine List.Perm.trans List.perm_middle ?_
  rw [← List.filter_append, List.takeWhile_append_dropWhile]

lemma loadLoop_spec :
    ∀ (rs acc : List Rule),
      StoreSorted acc →
      (∀ r ∈ rs, r.level = "project" → validateRule r = true) →
      (∀ r ∈ rs, r.level = "project" → ∀ x ∈ acc, x.id ≠ r.id) →
      distinctProjectIds rs →
      StoreSorted (rs.foldl projectStep acc) ∧
      (rs.foldl projectStep acc).filter (fun r => r.level ≠ "project") =
        acc.filter (fun r => r.level ≠ "project") ∧
      List.Perm
        ((rs.foldl projectStep acc).filter (fun r => r.level = "project"))
        (rs.filter (fun r => r.level = "project") ++
          acc.filter (fun r => r.level = "project")) := by
  intro rs
  induction rs with
  | nil =>
      intro acc hacc _ _ _
      exact ⟨hacc, rfl, by simp⟩
  | cons r rest ih =>
      intro acc hacc hval hfresh hdist
      obtain ⟨hdist_head, hdist_rest⟩ := List.pairwise_cons.mp hdist
      have hval' : ∀ q ∈ rest, q.level = "project" → validateRule q = true :=
        fun q hq => hval q (List.mem_cons_of_mem r hq)
      by_cases hp : r.level = "project"
      · have hreg : (register acc r).2 = insertTail r acc :=
          register_fresh_store hacc (hval r (List.mem_cons_self r rest) hp)
            (hfresh r (List.mem_cons_self r rest) hp)
        have hacc' : StoreSorted (insertTail r acc) :=
          insertTail_pairwise hacc
        have hfresh' : ∀ q ∈ rest, q.level = "project" →
            ∀ x ∈ insertTail r acc, x.id ≠ q.id := by
          intro q hq hqp x hx
          rcases mem_insertTail.mp hx with hx | hx
          · rw [hx]
            exact hdist_head q hq hp hqp
          · exact hfresh q (List.mem_cons_of_mem r hq) hqp x hx
        have IH := ih (insertTail r acc) hacc' hval' hfresh' hdist_rest
        have hstep : (r :: rest).foldl projectStep acc =
            rest.foldl projectStep (insertTail r acc) := by
          rw [List.foldl_cons,
            show projectStep acc r = insertTail r acc from by
              unfold projectStep
              rw [if_pos hp, hreg]]
        rw [hstep]
        refine ⟨IH.1, ?_, ?_⟩
        · rw [IH.2.1, insertTail_filter_ne (by simp [hp])]
        · refine IH.2.2.trans ?_
          have h1 : List.Perm
              ((insertTail r acc).filter (fun x => x.level = "project"))
              (r :: acc.filter (fun x => x.level = "project")) :=
            insertTail_filter_eq (by simp [hp])
          refine (List.Perm.append_left _ h1).trans ?_
          rw [List.filter_cons_of_pos (by simp [hp])]
          exact List.perm_middle
      · have hfresh' : ∀ q ∈ rest, q.level = "project" →
            ∀ x ∈ acc, x.id ≠ q.id :=
          fun q hq => hfresh q (List.mem_cons_of_mem r hq)
        have IH := ih acc hacc hval' hfresh' hdist_rest
        have hstep : (r :: rest).foldl projectStep acc =
            rest.foldl projectStep acc := by
          rw [List.foldl_cons,
            show projectStep acc r = acc from by
              unfold projectStep
              rw [if_neg hp]]
        rw [hstep]
        refine ⟨IH.1, IH.2.1, ?_⟩
        rw [List.filter_cons_of_neg (by simp [hp])]
        exact IH.2.2

lemma loadProjectRules_spec {s rs : List Rule}
    (hs : StoreSorted s)
    (hval : ∀ r ∈ rs, r.level = "project" → validateRule r = true)
    (hfresh : ∀ r ∈ rs, r.level = "project" →
      ∀ x ∈ s, x.level ≠ "project" → x.id ≠ r.id)
    (hdist : distinctProjectIds rs) :
    StoreSorted (loadProjectRules s (some ⟨some rs⟩)) ∧
    (loadProjectRules s (some ⟨some rs⟩)).filter
        (fun r => r.level ≠ "project") =
      s.filter (fun r => r.level ≠ "project") ∧
    List.Perm
      ((loadProjectRules s (some ⟨some rs⟩)).filter
        (fun r => r.level = "project"))
      (rs.filter (fun r => r.level = "project")) := by
  have hacc : StoreSorted (s.filter (fun r => r.level ≠ "project")) :=
    List.Pairwise.sublist (List.filter_sublist s) hs
  have hfresh' : ∀ r ∈ rs, r.level = "project" →
      ∀ x ∈ s.filter (fun r => r.level ≠ "project"), x.id ≠ r.id := by
    intro r hr hrp x hx
    have hx' := List.mem_filter.mp hx
    exact hfresh r hr hrp x hx'.1 (by simpa using hx'.2)
  have H := loadLoop_spec rs (s.filter (fun r => r.level ≠ "project"))
    hacc hval hfresh' hdist
  have hinner : loadProjectRules s (some ⟨some rs⟩) =
      rs.foldl projectStep (s.filter (fun r => r.level ≠ "project")) := rfl
  rw [hinner]
  refine ⟨H.1, ?_, ?_⟩
  · rw [H.2.1]
    exact List.filter_eq_self.mpr (fun a ha => (List.mem_filter.mp ha).2)
  · refine H.2.2.trans ?_
    have hnil : (s.filter (fun r => r.level ≠ "project")).filter
        (fun r => r.level = "project") = [] := by
      refine List.filter_eq_nil_iff.mpr ?_
      intro a ha hcontra
      have h2 := (List.mem_filter.mp ha).2
      rw [decide_eq_true_eq] at h2
      exact h2 (of_decide_eq_true hcontra)
    rw [hnil, List.append_nil]

/-- C9 counterexample: loading project set A = [] and then
B = [projCollideRule] (a valid project-level rule whose id equals the
system rule "system-boot-allow") replaces that system rule in place:
the store entry under that id is afterwards project-level, so a rule
of a level other than project that was present before the calls was
not left unchanged. -/
theorem project_rule_id_collision :
    ((loadProjectRules
          (loadProjectRules initStore (some ⟨some []⟩))
          (some ⟨some [projCollideRule]⟩)).find?
        (fun r => r.id = "system-boot-allow")).map (fun r => r.level) =
      some "project" ∧
    (initStore.find? (fun r => r.id = "system-boot-allow")).map
        (fun r => r.level) = some "system" := by
  constructor
  · decide
  · decide

/-- C9 (amended): provided the project-level rules of each supplied
set are structurally valid, carry pairwise-distinct ids, and their
ids do not collide with the non-project rules of the (sorted) store,
calling `loadProjectRules(setA)` and then `loadProjectRules(setB)`
leaves exactly setB's project-level rules registered at level project
(as a permutation: the store keeps them in priority order) while the
non-project rules — same entries, same relative order — are left
unchanged.  An id collision with a non-project rule would instead
replace that rule, which is what the counterexample exhibits. -/
theorem load_project_rules_replace :
    ∀ (s A B : List Rule),
      StoreSorted s →
      (∀ r ∈ A, r.level = "project" → validateRule r = true) →
      (∀ r ∈ A, r.level = "project" →
        ∀ x ∈ s, x.level ≠ "project" → x.id ≠ r.id) →
      distinctProjectIds A →
      (∀ r ∈ B, r.level = "project" → validateRule r = true) →
      (∀ r ∈ B, r.level = "project" →
        ∀ x ∈ s, x.level ≠ "project" → x.id ≠ r.id) →
      distinctProjectIds B →
      List.Perm
        ((loadProjectRules (loadProjectRules s (some ⟨some A⟩))
            (some ⟨some B⟩)).filter (fun r => r.level = "project"))
        (B.filter (fun r => r.level = "project")) ∧
      (loadProjectRules (loadProjectRules s (some ⟨some A⟩))
          (some ⟨some B⟩)).filter (fun r => r.level ≠ "project") =
        s.filter (fun r => r.level ≠ "project") := by
  intro s A B hs hvA hfA hdA hvB hfB hdB
  have HA := loadProjectRules_spec hs hvA hfA hdA
  have hfB' : ∀ r ∈ B, r.level = "project" →
      ∀ x ∈ loadProjectRules s (some ⟨some A⟩),
        x.level ≠ "project" → x.id ≠ r.id := by
    intro r hr hrp x hx hxnp
    have hxf : x ∈ (loadProjectRules s (some ⟨some A⟩)).filter
        (fun r => r.level ≠ "project") :=
      List.mem_filter.mpr ⟨hx, by simpa using hxnp⟩
    rw [HA.2.1] at hxf
    have hx' := List.mem_filter.mp hxf
    exact hfB r hr hrp x hx'.1 (by simpa using hx'.2)
  have HB := loadProjectRules_spec HA.1 hvB hfB' hdB
  refine ⟨HB.2.2, ?_⟩
  rw [HB.2.1, HA.2.1]

/-- C9 witness: the replace theorem applied to the empty store with
the singleton project sets A = [projRuleA] and B = [projRuleB]. -/
theorem load_project_rules_replace_witness :
    List.Perm
      ((loadProjectRules (loadProjectRules [] (some ⟨some [projRuleA]⟩))
          (some ⟨some [projRuleB]⟩)).filter
        (fun r => r.level = "project"))
      ([projRuleB].filter (fun r => r.level = "project")) ∧
    (loadProjectRules (loadProjectRules [] (some ⟨some [projRuleA]⟩))
        (some ⟨some [projRuleB]⟩)).filter (fun r => r.level ≠ "project") =
      ([] : List Rule).filter (fun r => r.level ≠ "project") :=
  load_project_rules_replace [] [projRuleA] [projRuleB]
    List.Pairwise.nil
    (by intro r hr hp; rw [List.mem_singleton.mp hr]; rfl)
    (by intro r hr hp x hx; cases hx)
    (List.pairwise_singleton _ _)
    (by intro r hr hp; rw [List.mem_singleton.mp hr]; rfl)
    (by intro r hr hp x hx; cases hx)
    (List.pairwise_singleton _ _)

/-- C10: `loadProjectRules` called with a null/undefined argument, or
with a project whose `rules` field is absent, leaves the store
entirely unchanged — in particular previously registered project-level
rules are not evicted; and of a supplied rules array only the entries
whose level is exactly "project" are ever inserted: loading an array
gives the same store as loading its project-level restriction. -/
theorem load_project_rules_guard :
    (∀ s : List Rule, loadProjectRules s none = s) ∧
    (∀ s : List Rule, loadProjectRules s (some ⟨none⟩) = s) ∧
    (∀ (s rs : List Rule),
      loadProjectRules s (some ⟨some rs⟩) =
        loadProjectRules s
          (some ⟨some (rs.filter (fun r => r.level = "project"))⟩)) := by
  refine ⟨fun s => rfl, fun s => rfl, ?_⟩
  intro s rs
  show rs.foldl projectStep (s.filter (fun r => r.level ≠ "project")) =
    (rs.filter (fun r => r.level = "project")).foldl projectStep
      (s.filter (fun r => r.level ≠ "project"))
  generalize s.filter (fun r => r.level ≠ "project") = acc
  induction rs generalizing acc with
  | nil => rfl
  | cons r rest ih =>
      by_cases hp : r.level = "project"
      · rw [List.filter_cons_of_pos (by simp [hp]), List.foldl_cons,
          List.foldl_cons]
        exact ih _
      · rw [List.filter_cons_of_neg (by simp [hp]), List.foldl_cons,
          show projectStep acc r = acc from by
            unfold projectStep
            rw [if_neg hp]]
        exact ih _

end RulesEngine
